import Mathlib

/-!
Verification of the CrystalRestaurants enrichment pipeline.

This file gives a shallow embedding of the core enrichment functions of the
repository and proves / refutes the stated properties about them:

* `scripts/generate_map.py`: `normalize_text`, `record_quality`, `dedupe_key`,
  `deduplicate_records` (quality scorer and deduplicator);
* `scripts/scrape_crystal.py`: `normalise_address`, `upsert_locations`,
  `geocode_records` and its provider chain;
* `scripts/scrape_menus.py`: `MenuScraper.extract_menu_generic` and the
  per-venue source fallback loop of `scrape_menus`.

Modelling conventions: Python strings are Lean `String`s manipulated as
`List Char`; Python `None` becomes `Option.none`; Python floats used for
coordinates and quality scores become exact rationals `ℚ` (the quality weights
0.5/1.0/1.5/2.0/5.0 are exactly representable in binary floating point, so the
comparisons performed by the code coincide with the rational ones);
`str.lower` is modelled as ASCII lowercasing (the counterexamples and witnesses
below only exercise ASCII case folding); the Python regular expressions that
scan raw HTML text are modelled at the match-result level where noted.
-/

/-- ASCII whitespace, modelling Python's whitespace class for `str.strip`,
`str.split` and the regex class `\s` on the inputs considered here. -/
def isPyWs (c : Char) : Bool :=
  c == ' ' || c == '\t' || c == '\n' || c == '\r' || c == '\x0b' || c == '\x0c'

/-- Python `str.strip(chars)`: drop characters satisfying `p` from both ends. -/
def pyStrip (p : Char → Bool) (l : List Char) : List Char :=
  ((l.dropWhile p).reverse.dropWhile p).reverse

/-- Python `str.strip()` on a `String`. -/
def stripStr (s : String) : String :=
  String.mk (pyStrip isPyWs s.data)

/-- Python `str.lower`, modelled as ASCII lowercasing. -/
def lowerStr (s : String) : String :=
  String.mk (s.data.map Char.toLower)

/-- Substring test on character lists, modelling Python's `in` operator for
strings (the needle is non-empty at every use site in the sources). -/
def isSubstrL (pat : List Char) : List Char → Bool
  | [] => pat.isEmpty
  | c :: rest => pat.isPrefixOf (c :: rest) || isSubstrL pat rest

/-- Substring test on `String`s. -/
def isSubstrS (pat s : String) : Bool :=
  isSubstrL pat.data s.data

/-- Python truthiness of an optional string column: `None` and `""` are falsy. -/
def truthy (s : Option String) : Bool :=
  match s with
  | none => false
  | some v => !(v == "")

/-- Python `a or b` on optional strings: yields `a` when truthy, else `b`. -/
def pyOr (a b : Option String) : Option String :=
  if truthy a then a else b

/-- Python `str.split()` (split on whitespace runs, dropping empty pieces). -/
def pyWords (l : List Char) : List (List Char) :=
  (l.foldr
    (fun c acc =>
      if isPyWs c then [] :: acc
      else
        match acc with
        | [] => [[c]]
        | w :: ws => (c :: w) :: ws)
    []).filter (fun w => !w.isEmpty)

/-- Python `" ".join(words)`. -/
def joinSpaces (ws : List (List Char)) : List Char :=
  (ws.intersperse [' ']).flatten

namespace GenerateMap

/-!
Model of the quality scorer and deduplicator of `scripts/generate_map.py`.
A record is the dictionary produced by `load_locations` /
`resolve_display_fields`, restricted to the keys that `normalize_text`,
`record_quality`, `dedupe_key` and `deduplicate_records` read.
-/

/-- One venue record as consumed by the deduplicator (the dict keys read by
`record_quality` and `dedupe_key` in `generate_map.py`). Coordinates are exact
rationals standing for the Python floats. -/
structure Rec where
  brand : Option String
  branch : Option String
  address : Option String
  phone : Option String
  extra_info : Option String
  latitude : Option ℚ
  longitude : Option ℚ
  geocode_provider : Option String
  resolved_address : Option String
  resolved_phone : Option String
  resolved_website : Option String
  maps_url : Option String
deriving DecidableEq

/-- A record with every field absent, used to build concrete examples. -/
def blankRec : Rec :=
  ⟨none, none, none, none, none, none, none, none, none, none, none, none⟩

/-- `normalize_text` from `generate_map.py`:
`"" if not value else " ".join(value.strip().lower().split())`. -/
def normalize_text (value : Option String) : String :=
  match value with
  | none => ""
  | some s =>
    if s = "" then ""
    else String.mk (joinSpaces (pyWords ((pyStrip isPyWs s.data).map Char.toLower)))

/-- `record_quality` from `generate_map.py`: the weighted sum of field
presence, with the weights of the source (5, 2, 1.5, 1, 0.5, 0.5). -/
def record_quality (r : Rec) : ℚ :=
  (if truthy r.maps_url then 5 else 0) +
  (if truthy r.resolved_address then 2 else 0) +
  (if truthy r.resolved_phone then 3/2 else 0) +
  (if truthy r.resolved_website then 1 else 0) +
  (if truthy r.extra_info then 1/2 else 0) +
  (if lowerStr ((r.geocode_provider).getD "") = "google" then 1/2 else 0)

/-- Round-half-to-even on rationals, modelling Python's `round`.  With
`n = ⌊q⌋` the fractional part is `(q.num - n * q.den) / q.den`, so it is
compared against `1/2` by comparing `2 * (q.num - n * q.den)` with `q.den`. -/
def roundHalfEven (q : ℚ) : ℤ :=
  let n := Int.fdiv q.num (q.den : ℤ)
  let r2 := 2 * (q.num - n * (q.den : ℤ))
  if r2 < (q.den : ℤ) then n
  else if (q.den : ℤ) < r2 then n + 1
  else if n % 2 = 0 then n else n + 1

/-- Python `round(x, 6)`, represented as an integer scaled by `10^6`. -/
def round6 (q : ℚ) : ℤ :=
  roundHalfEven (q * 1000000)

/-- The `(round(lat, 6), round(lon, 6))` pair of `dedupe_key`, present exactly
when both coordinates are present. -/
def coordKey (r : Rec) : Option (ℤ × ℤ) :=
  match r.latitude, r.longitude with
  | some la, some lo => some (round6 la, round6 lo)
  | _, _ => none

/-- Normalized address key: `normalize_text(resolved_address or address)`. -/
def addrKey (r : Rec) : String :=
  normalize_text (pyOr r.resolved_address r.address)

/-- Normalized phone key: `normalize_text(resolved_phone or phone)`. -/
def phoneKey (r : Rec) : String :=
  normalize_text (pyOr r.resolved_phone r.phone)

/-- The tagged tuples returned by `dedupe_key` (Python tuples whose first
component is the tier tag string). -/
inductive DKey where
  | branch (brand branch : String) (coord : Option (ℤ × ℤ)) (addr : String)
  | coord_addr (brand : String) (coord : ℤ × ℤ) (addr : String)
  | coord (brand : String) (coord : ℤ × ℤ) (phone : String)
  | fallback (brand addr phone : String)
deriving DecidableEq

/-- `dedupe_key` from `generate_map.py`: the tiered identity key.  A Python
tuple `coord_key` is always truthy when not `None`, so the tier-2 guard
`coord_key and addr_key` is `coordKey ≠ none ∧ addrKey ≠ ""`. -/
def dedupe_key (r : Rec) : DKey :=
  let brand_key := normalize_text r.brand
  let branch_key := normalize_text r.branch
  let addr_key := addrKey r
  let phone_key := phoneKey r
  if branch_key ≠ "" then
    .branch brand_key branch_key (coordKey r) addr_key
  else
    match coordKey r with
    | some c => if addr_key ≠ "" then .coord_addr brand_key c addr_key
                else .coord brand_key c phone_key
    | none => .fallback brand_key addr_key phone_key

/-- Lookup in the insertion-ordered dictionary `unique` of
`deduplicate_records` (first entry with the key). -/
def lookupKey : List (DKey × Rec) → DKey → Option Rec
  | [], _ => none
  | (k', r) :: rest, k => if k' = k then some r else lookupKey rest k

/-- Python dict assignment `unique[key] = record`: replace the value in place
when the key exists, append otherwise. -/
def dictInsert : List (DKey × Rec) → DKey → Rec → List (DKey × Rec)
  | [], k, r => [(k, r)]
  | (k', r') :: rest, k, r =>
    if k' = k then (k', r) :: rest else (k', r') :: dictInsert rest k r

/-- The loop body of `deduplicate_records`: store the record when the key is
new or the record's quality strictly exceeds the stored one. -/
def dedupe_step (m : List (DKey × Rec)) (r : Rec) : List (DKey × Rec) :=
  let k := dedupe_key r
  match lookupKey m k with
  | none => m ++ [(k, r)]
  | some existing =>
    if record_quality existing < record_quality r then dictInsert m k r else m

/-- `deduplicate_records` from `generate_map.py`: fold the records through the
insertion-ordered dictionary and return its values. -/
def deduplicate_records (records : List Rec) : List Rec :=
  (records.foldl dedupe_step []).map Prod.snd

/-- The sub-list of records mapping to a given dedup key. -/
def key_group (k : DKey) (records : List Rec) : List Rec :=
  records.filter (fun r => decide (dedupe_key r = k))

end GenerateMap

namespace ScrapeCrystal

/-!
Model of `scripts/scrape_crystal.py`: the address normalizer, the upsert into
the `locations` table and the geocoding resolver.
-/

/-- Match the regex `^(adres|address)\s*[:=]\s*` (case-insensitively): the
separator part after the label keyword. -/
def afterLabelSep (rest : List Char) : Option (List Char) :=
  match rest.dropWhile isPyWs with
  | [] => none
  | c :: r => if c = ':' || c = '=' then some (r.dropWhile isPyWs) else none

/-- Strip a leading `adres`/`address` label with `:` or `=` separator, as done
by `re.sub(r"^(adres|address)\s*[:=]\s*", "", cleaned, flags=re.IGNORECASE)`.
The alternatives `adres` and `address` differ at their third character, so the
regex alternation reduces to two disjoint prefix tests. -/
def stripAddressLabel (l : List Char) : List Char :=
  let low := l.map Char.toLower
  if ['a', 'd', 'r', 'e', 's'].isPrefixOf low then
    match afterLabelSep (l.drop 5) with
    | some r => r
    | none => l
  else if ['a', 'd', 'd', 'r', 'e', 's', 's'].isPrefixOf low then
    match afterLabelSep (l.drop 7) with
    | some r => r
    | none => l
  else l

/-- Fuel-driven worker for `pyReplace`; the fuel starts at the input length,
which bounds the recursion because every step consumes at least one
character.  (Structural recursion on the fuel keeps the function
kernel-reducible.) -/
def pyReplaceGo (p0 : Char) (ps rep : List Char) : Nat → List Char → List Char
  | _, [] => []
  | 0, l => l
  | fuel + 1, c :: rest =>
    if c = p0 ∧ ps.isPrefixOf rest then
      rep ++ pyReplaceGo p0 ps rep fuel (rest.drop ps.length)
    else
      c :: pyReplaceGo p0 ps rep fuel rest

/-- Python `str.replace(pat, rep)` for a non-empty pattern `p0 :: ps`,
replacing non-overlapping occurrences left to right. -/
def pyReplace (p0 : Char) (ps rep : List Char) (l : List Char) : List Char :=
  pyReplaceGo p0 ps rep l.length l

/-- The regex substitution `re.sub(r"\s+", " ", ...)`: collapse every maximal
whitespace run to a single space. -/
def collapseWs : List Char → List Char
  | [] => []
  | [c] => [if isPyWs c then ' ' else c]
  | c :: d :: rest =>
    if isPyWs c ∧ isPyWs d then collapseWs (d :: rest)
    else (if isPyWs c then ' ' else c) :: collapseWs (d :: rest)

/-- The character set of the final `cleaned.strip(",; ")`. -/
def isTrimChar (c : Char) : Bool :=
  c == ',' || c == ';' || c == ' '

/-- The cleaning pipeline of `normalise_address` on the character list of a
non-empty input string, in source order. -/
def cleanAddress (l : List Char) : List Char :=
  let cleaned := pyStrip isPyWs l
  let cleaned := stripAddressLabel cleaned
  let cleaned := pyReplace ' ' ['/', ' '] [',', ' '] cleaned
  let cleaned := pyReplace ' ' ['-', ' '] [',', ' '] cleaned
  let cleaned := collapseWs cleaned
  pyStrip isTrimChar cleaned

/-- `normalise_address` from `scrape_crystal.py`. -/
def normalise_address (address : Option String) : Option String :=
  match address with
  | none => none
  | some s =>
    if s = "" then none
    else
      let cleaned := cleanAddress s.data
      if cleaned.isEmpty then none else some (String.mk cleaned)

/-!
The claimed contract of the address normalizer (claim C9), modelled from the
spec's words for comparison with the source function: strip a leading
case-insensitive `adres:`/`address:` label, replace the separators, collapse
whitespace runs, and trim leading/trailing punctuation and whitespace, where
"punctuation" is the ASCII punctuation class (Python's `string.punctuation`).
-/

/-- ASCII punctuation (`string.punctuation`), by character code. -/
def isAsciiPunct (c : Char) : Bool :=
  (33 ≤ c.toNat && c.toNat ≤ 47) || (58 ≤ c.toNat && c.toNat ≤ 64) ||
  (91 ≤ c.toNat && c.toNat ≤ 96) || (123 ≤ c.toNat && c.toNat ≤ 126)

/-- Strip a leading case-insensitive `adres:` / `address:` label, literally as
the claim words it (label word immediately followed by a colon). -/
def stripLabelClaim (l : List Char) : List Char :=
  let low := l.map Char.toLower
  if ['a', 'd', 'r', 'e', 's', ':'].isPrefixOf low then l.drop 6
  else if ['a', 'd', 'd', 'r', 'e', 's', 's', ':'].isPrefixOf low then l.drop 8
  else l

/-- The address normalizer as claim C9 states it (spec wording, not source):
label strip, separator replacement, whitespace collapse, then trimming of
leading/trailing punctuation and whitespace. -/
def normalise_address_claim (address : Option String) : Option String :=
  match address with
  | none => none
  | some s =>
    if s = "" then none
    else
      let cleaned := stripLabelClaim s.data
      let cleaned := pyReplace ' ' ['/', ' '] [',', ' '] cleaned
      let cleaned := pyReplace ' ' ['-', ' '] [',', ' '] cleaned
      let cleaned := collapseWs cleaned
      let cleaned := pyStrip (fun c => isAsciiPunct c || isPyWs c) cleaned
      if cleaned.isEmpty then none else some (String.mk cleaned)

/-- The address normalizer as amended by the counterexample: the label
separator may be `:` or `=` with surrounding whitespace, the input is first
stripped of surrounding whitespace, and the final trim removes only commas,
semicolons and spaces. -/
def normalise_address_amended (address : Option String) : Option String :=
  match address with
  | none => none
  | some s =>
    if s = "" then none
    else
      let cleaned := pyStrip isPyWs s.data
      let cleaned := stripAddressLabel cleaned
      let cleaned := pyReplace ' ' ['/', ' '] [',', ' '] cleaned
      let cleaned := pyReplace ' ' ['-', ' '] [',', ' '] cleaned
      let cleaned := collapseWs cleaned
      let cleaned := pyStrip isTrimChar cleaned
      if cleaned.isEmpty then none else some (String.mk cleaned)

/-!
The geocoding resolver `geocode_records`.  A provider is a name together with a
function from the query string to `Except Unit (Option GeoLoc)`: `.error ()`
models a raised exception, `.ok none` a `None` result, `.ok (some loc)` a
successful geocode.  The geopy `Location` / `SimpleLocation` result object is
modelled by `GeoLoc`; its `raw` dictionary fields are the optional `raw_*`
components.
-/

/-- A geocoder result object (`geopy.Location` or `SimpleLocation`): latitude,
longitude, the `address` attribute, and the `raw` dictionary keys read by
`geocode_records`. -/
structure GeoLoc where
  latitude : ℚ
  longitude : ℚ
  address : Option String
  raw_resolved_address : Option String
  raw_resolved_phone : Option String
  raw_resolved_website : Option String
  raw_place_id : Option String
  raw_maps_url : Option String
deriving DecidableEq

/-- A named geocoding provider. -/
abbrev GeoProvider : Type :=
  String × (String → Except Unit (Option GeoLoc))

/-- The `try`/`except` wrapper around one provider call in `geocode_records`:
an exception is logged and treated as `result = None`. -/
def runProvider (f : String → Except Unit (Option GeoLoc)) (q : String) : Option GeoLoc :=
  match f q with
  | .error _ => none
  | .ok r => r

/-- The inner provider loop of `geocode_records`: try providers in configured
order; the first non-`None` result wins.  The second component counts the
inter-call delay intervals slept (the resolver forces `delay ≥ 0.5 > 0`, so
one interval elapses after every attempt, failed or successful). -/
def try_geocoders : List GeoProvider → String → Option (String × GeoLoc) × Nat
  | [], _ => (none, 0)
  | (name, f) :: rest, q =>
    match runProvider f q with
    | some loc => (some (name, loc), 1)
    | none =>
      let r := try_geocoders rest q
      (r.1, r.2 + 1)

/-- One row of the `locations` table as read and written by
`geocode_records` (`SELECT id, brand, branch, address, latitude, longitude`
plus the columns of its `UPDATE`). -/
structure LocRow where
  id : Nat
  brand : String
  branch : Option String
  address : Option String
  latitude : Option ℚ
  longitude : Option ℚ
  geocode_provider : Option String
  resolved_address : Option String
  resolved_phone : Option String
  resolved_website : Option String
  geocode_place_id : Option String
  geocode_maps_url : Option String
  last_updated : String
deriving DecidableEq

/-- The search-text construction of `geocode_records`: brand, conditionally
branch, then the cleaned address; parts stripped, falsy parts dropped,
first-occurrence deduplicated (`dict.fromkeys`), joined with `", "`. -/
def build_search_text (brand : String) (branch : Option String) (cleaned : String) : String :=
  let parts : List String :=
    [brand] ++
    (match branch with
     | some b =>
       if b ≠ "" ∧ lowerStr b ≠ "genel" ∧ lowerStr b ≠ lowerStr brand then [b] else []
     | none => []) ++
    [cleaned]
  let kept := (parts.filterMap
    (fun p => if p = "" then none else
      let t := stripStr p
      if t = "" then none else some t)).eraseDups
  String.intercalate ", " kept

/-- Append the country hint when neither `Türkiye` nor `Turkey` occurs in the
search text. -/
def addCountryHint (st : String) : String :=
  if isSubstrS "Türkiye" st || isSubstrS "Turkey" st then st
  else st ++ ", Türkiye"

/-- The body of the per-row loop of `geocode_records`.  Returns the (possibly
updated) row together with the number of provider attempts (equally, slept
delay intervals) spent on this row. -/
def process_geocode_row (geocoders : List GeoProvider) (force : Bool) (now : String)
    (row : LocRow) : LocRow × Nat :=
  if ¬ truthy row.address then (row, 0)
  else if row.latitude.isSome ∧ row.longitude.isSome ∧ ¬ force then (row, 0)
  else
    match normalise_address row.address with
    | none => (row, 0)
    | some cleaned =>
      let search_text := build_search_text row.brand row.branch cleaned
      if search_text = "" then (row, 0)
      else
        match try_geocoders geocoders (addCountryHint search_text) with
        | (none, n) => (row, n)
        | (some (name, loc), n) =>
          ({ row with
              latitude := some loc.latitude
              longitude := some loc.longitude
              geocode_provider := some name
              resolved_address := pyOr loc.raw_resolved_address loc.address
              resolved_phone := loc.raw_resolved_phone
              resolved_website := loc.raw_resolved_website
              geocode_place_id := loc.raw_place_id
              geocode_maps_url := loc.raw_maps_url
              last_updated := now }, n)

/-- `geocode_records`: sequentially process every fetched row, accumulating the
updated rows and the total number of provider attempts.  With no configured
geocoders the function returns immediately. -/
def geocode_records (geocoders : List GeoProvider) (force : Bool) (now : String)
    (rows : List LocRow) : List LocRow × Nat :=
  if geocoders.isEmpty then (rows, 0)
  else
    rows.foldl
      (fun acc row =>
        let pr := process_geocode_row geocoders force now row
        (acc.1 ++ [pr.1], acc.2 + pr.2))
      ([], 0)

/-!
The upsert of `upsert_locations` into the `locations` table.  The
`unique_key` is the JSON dump of the `(brand, branch, address)` triple, which
is a faithful injective encoding of the triple; it is modelled by the triple
itself.  The serialized `raw_payload` string is opaque and supplied alongside
each record.
-/

/-- A raw venue record as produced by `parse_locations` (the fields the
`INSERT` statement of `upsert_locations` reads). -/
structure RawRecord where
  brand : Option String
  branch : Option String
  address : Option String
  phone : Option String
  website : Option String
  extra_info : Option String
  latitude : Option ℚ
  longitude : Option ℚ
deriving DecidableEq

/-- The upsert key: `json.dumps([brand, branch, address])`, modelled as the
triple. -/
def record_key (r : RawRecord) : Option String × Option String × Option String :=
  (r.brand, r.branch, r.address)

/-- A full row of the `locations` table, including the enrichment columns
added by `initialise_database` and by `ensure_menu_columns` of
`scrape_menus.py`. -/
structure DbRow where
  unique_key : Option String × Option String × Option String
  brand : Option String
  branch : Option String
  address : Option String
  phone : Option String
  website : Option String
  extra_info : Option String
  latitude : Option ℚ
  longitude : Option ℚ
  geocode_provider : Option String
  resolved_address : Option String
  resolved_phone : Option String
  resolved_website : Option String
  geocode_place_id : Option String
  geocode_maps_url : Option String
  raw_payload : Option String
  last_updated : String
  menu_data : Option String
  menu_source : Option String
  menu_last_scraped : Option String
deriving DecidableEq

/-- The columns never touched by the upsert's conflict clause: the geocoding
enrichment and the menu enrichment. -/
def enrichment (row : DbRow) :=
  (row.latitude, row.longitude, row.geocode_provider, row.resolved_address,
   row.resolved_phone, row.resolved_website, row.geocode_place_id,
   row.geocode_maps_url, row.menu_data, row.menu_source)

/-- The first row of the table with the given unique key (the table keeps the
key unique, so at most one exists). -/
def row_by_key : List DbRow → (Option String × Option String × Option String) → Option DbRow
  | [], _ => none
  | row :: rest, k => if row.unique_key = k then some row else row_by_key rest k

/-- The freshly inserted row of the `INSERT` branch: listed columns from the
record, every other column `NULL`. -/
def new_row (r : RawRecord) (payload now : String) : DbRow :=
  ⟨record_key r, r.brand, r.branch, r.address, r.phone, r.website, r.extra_info,
   r.latitude, r.longitude, none, none, none, none, none, none,
   some payload, now, none, none, none⟩

/-- The `ON CONFLICT(unique_key) DO UPDATE SET` clause: only brand, branch,
address, phone, website, extra_info, raw_payload and last_updated are set. -/
def update_row (row : DbRow) (r : RawRecord) (payload now : String) : DbRow :=
  { row with
      brand := r.brand
      branch := r.branch
      address := r.address
      phone := r.phone
      website := r.website
      extra_info := r.extra_info
      raw_payload := some payload
      last_updated := now }

/-- One record's upsert: update the row with the same unique key if present,
insert a fresh row otherwise. -/
def upsert_one (t : List DbRow) (r : RawRecord) (payload now : String) : List DbRow :=
  if (row_by_key t (record_key r)).isSome then
    t.map (fun row => if row.unique_key = record_key r then update_row row r payload now else row)
  else
    t ++ [new_row r payload now]

/-- `upsert_locations`: fold all records (each paired with its serialized
payload) through the upsert. -/
def upsert_locations (t : List DbRow) (rs : List (RawRecord × String)) (now : String) :
    List DbRow :=
  rs.foldl (fun acc rp => upsert_one acc rp.1 rp.2 now) t

end ScrapeCrystal

namespace ScrapeMenus

/-!
Model of `scripts/scrape_menus.py`: the generic menu extraction engine
`MenuScraper.extract_menu_generic` and the per-venue fallback loop of
`scrape_menus`.

The BeautifulSoup queries and the regular-expression scans over raw HTML text
are modelled at the match-result level: an abstract `HtmlDoc` carries, for each
of the element families the engine queries, the data the engine reads off the
matched elements (extracted name text, price-pattern match results, parsed
JSON-LD types).  The cascade logic, the element limits (`[:100]`, `[:200]`,
`[:20]`), the keep-only-named-items filter and the final non-emptiness guard
are translated directly from the source.
-/

/-- One extracted menu item (the dict built by `_extract_item_details` /
`_extract_from_text`); absent dict keys are `none`. -/
structure MenuItem where
  name : String
  price : Option String
  description : Option String
  category : Option String
deriving DecidableEq

/-- An element matched by the strategy-2 query
`find_all(["div","li","article"], class_=re.compile(r"menu-item|food-item|dish|product"))`,
reduced to the data `_extract_item_details` reads from it:
* `nameText`: stripped text of the first heading / name-class / bold child,
  when one exists;
* `priceClassText`: stripped text of the price-class or price-span child;
* `textPriceMatch`: the first currency-pattern regex match in the element's
  full text (`₺`, `$`, `€`, `£` adjacent to digits), abstracted to its result;
* `descText`: stripped text of the description child when one exists and is
  distinct from the name child;
* `categoryHeading`: text of the heading of the nearest category/section
  ancestor, when one exists. -/
structure ItemElem where
  nameText : Option String
  priceClassText : Option String
  textPriceMatch : Option String
  descText : Option String
  categoryHeading : Option String
deriving DecidableEq

/-- `_extract_item_details`: build an item dict; keep it only when the name
key is present and truthy (non-empty). -/
def extract_item_details (e : ItemElem) : Option MenuItem :=
  let price :=
    match e.priceClassText with
    | some p => some p
    | none => e.textPriceMatch
  let desc :=
    match e.descText with
    | some d => if 10 < d.data.length then some (String.mk (d.data.take 500)) else none
    | none => none
  match e.nameText with
  | some n => if n = "" then none else some ⟨n, price, desc, e.categoryHeading⟩
  | none => none

/-- A `p`/`li`/`div` text element scanned by strategy 3
(`_extract_from_text`): its stripped text and the result of matching the
"name, separator run, currency price" line regex against it. -/
structure TextElem where
  text : String
  priceLineMatch : Option (String × String)
deriving DecidableEq

/-- `_extract_from_text`: scan the first 200 text elements; skip empty or
over-long (> 200 characters) texts; accept regex matches as flat items with
stripped name and price. -/
def extract_from_text (elems : List TextElem) : List MenuItem :=
  (elems.take 200).filterMap
    (fun e =>
      if e.text = "" ∨ 200 < e.text.data.length then none
      else
        match e.priceLineMatch with
        | some (n, p) => some ⟨stripStr n, some (stripStr p), none, none⟩
        | none => none)

/-- A parsed `application/ld+json` script block:
* `malformed`: `json.loads` raised (or a non-string entry type raised inside
  the list branch);
* `dict t payload`: a JSON object whose `@type` is `t` (`none` when the value
  is not a string, `some ""` when absent), with opaque serialized `payload`;
* `arr entries`: a JSON array; each entry is `some (type, payload)` for an
  object entry with a string `@type`, `none` otherwise. -/
inductive JsonLd where
  | malformed
  | dict (schemaType : Option String) (payload : String)
  | arr (entries : List (Option (String × String)))
deriving DecidableEq

/-- The schema-type test of `_extract_structured_data`: the lowercased
`@type` mentions restaurant, menu or foodestablishment. -/
def schemaQualifies (t : String) : Bool :=
  isSubstrS "restaurant" (lowerStr t) || isSubstrS "menu" (lowerStr t) ||
  isSubstrS "foodestablishment" (lowerStr t)

/-- The qualifying payload contributed by one JSON-LD block: the object itself
when its type qualifies, or the first qualifying entry of a list (the inner
loop breaks at the first hit). -/
def structuredOfBlock : JsonLd → Option String
  | .malformed => none
  | .dict t payload =>
    match t with
    | some ts => if schemaQualifies ts then some payload else none
    | none => none
  | .arr entries =>
    (entries.filterMap
      (fun e =>
        match e with
        | some (ts, payload) => if schemaQualifies ts then some payload else none
        | none => none)).head?

/-- `_extract_structured_data`: each qualifying block overwrites the
`json_ld` slot, so the last qualifying payload wins; `none` when no block
qualifies. -/
def extract_structured_data (blocks : List JsonLd) : Option String :=
  blocks.foldl
    (fun acc b =>
      match structuredOfBlock b with
      | some p => some p
      | none => acc)
    none

/-- A strategy-1 menu section container (class/id matching the menu
vocabulary regex), reduced to the text of its first heading, if any. -/
structure SectionElem where
  headingText : Option String
deriving DecidableEq

/-- An `a`/`button` element with tab/nav/category class. -/
structure NavElem where
  text : String
deriving DecidableEq

/-- The menu-domain keyword list of `_extract_categories`. -/
def menuKeywords : List String :=
  ["menu", "food", "ana", "başlangıç", "tatlı", "içecek", "çorba"]

/-- Insert into a sorted list of strings (code-point order). -/
def insertSorted (s : String) : List String → List String
  | [] => [s]
  | t :: rest => if s ≤ t then s :: t :: rest else t :: insertSorted s rest

/-- `sorted(categories)` over the deduplicated category set. -/
def sortStrings (l : List String) : List String :=
  l.foldr insertSorted []

/-- `_extract_categories`: headings of menu sections (non-empty, shorter than
100 characters) plus the first 20 nav/tab labels that are non-empty, shorter
than 50 characters and mention a menu keyword; deduplicated and sorted. -/
def extract_categories (sections : List SectionElem) (navs : List NavElem) : List String :=
  let fromSections := sections.filterMap
    (fun s =>
      match s.headingText with
      | some t => if t ≠ "" ∧ t.data.length < 100 then some t else none
      | none => none)
  let fromNav := (navs.take 20).filterMap
    (fun n =>
      if n.text ≠ "" ∧ n.text.data.length < 50 ∧
          menuKeywords.any (fun k => isSubstrS k (lowerStr n.text)) then
        some n.text
      else none)
  sortStrings (fromSections ++ fromNav).eraseDups

/-- The abstract HTML document, carrying the result of each BeautifulSoup
query `extract_menu_generic` performs. -/
structure HtmlDoc where
  menuSections : List SectionElem
  menuItems : List ItemElem
  textElems : List TextElem
  jsonLdBlocks : List JsonLd
  navElems : List NavElem
deriving DecidableEq

/-- The menu document dict built by `extract_menu_generic`; the
`structured_data` key is present only when structured data was found. -/
structure MenuData where
  source : String
  url : String
  items : List MenuItem
  categories : List String
  structured_data : Option String
deriving DecidableEq

/-- `MenuScraper.extract_menu_generic`: strategy 2 over the first 100
menu-item elements; strategy 3 when that yields no items; structured data and
categories extracted independently; return the document only when it has items
or structured data, `None` otherwise. -/
def extract_menu_generic (doc : HtmlDoc) (url : String) : Option MenuData :=
  let items1 := (doc.menuItems.take 100).filterMap extract_item_details
  let items := if items1.isEmpty then extract_from_text doc.textElems else items1
  let structured := extract_structured_data doc.jsonLdBlocks
  let categories := extract_categories doc.menuSections doc.navElems
  if ¬ items.isEmpty ∨ structured.isSome then
    some ⟨"website", url, items, categories, structured⟩
  else none

/-- The outcome of the per-venue body of the `scrape_menus` loop: the menu
document and provenance written back to the row, plus how often each scraper
was invoked. -/
structure VenueOutcome where
  menu : Option MenuData
  source : Option String
  website_calls : Nat
  maps_calls : Nat
deriving DecidableEq

/-- The per-venue body of the `scrape_menus` loop: try the website first and
record `"website"` on success; only when that produced nothing and a maps URL
exists, try Google Maps and record `"google_maps"` on success.  The scrapers
are passed in as capabilities (`scrape_website`, `scrape_google_maps`). -/
def process_venue (scrape_website scrape_google_maps : String → Option MenuData)
    (website maps_url : Option String) : VenueOutcome :=
  let step1 : Option MenuData × Option String × Nat :=
    if truthy website then
      let m := scrape_website (website.getD "")
      (m, if m.isSome then some "website" else none, 1)
    else (none, none, 0)
  let (menu1, source1, wc) := step1
  if menu1.isNone ∧ truthy maps_url then
    let m := scrape_google_maps (maps_url.getD "")
    ⟨m, if m.isSome then some "google_maps" else source1, wc, 1⟩
  else
    ⟨menu1, source1, wc, 0⟩

end ScrapeMenus

open GenerateMap ScrapeCrystal ScrapeMenus

section DedupTheorems

/-- Helper: the dedup fold step on an empty dictionary appends the record. -/
theorem dedupe_step_nil (r : Rec) : dedupe_step [] r = [(dedupe_key r, r)] := rfl

/-- Helper: deduplicating a colliding pair keeps the first record when the
second does not strictly beat it. -/
theorem deduplicate_pair_first (a b : Rec) (hk : dedupe_key a = dedupe_key b)
    (h : ¬ record_quality a < record_quality b) :
    deduplicate_records [a, b] = [a] := by
  simp [deduplicate_records, dedupe_step, lookupKey, hk, h]

/-- Helper: deduplicating a colliding pair keeps the second record when it
strictly beats the first. -/
theorem deduplicate_pair_second (a b : Rec) (hk : dedupe_key a = dedupe_key b)
    (h : record_quality a < record_quality b) :
    deduplicate_records [a, b] = [b] := by
  simp [deduplicate_records, dedupe_step, lookupKey, dictInsert, hk, h]

/-- A record whose coordinates both round to the same pair as another's, with
the same brand and no branch on either side, but a different raw address: the
two dedup keys differ, refuting the collapse half of claim C1 as stated. -/
def c1recA : Rec :=
  { blankRec with brand := some "x", address := some "a", latitude := some 41, longitude := some 29 }

/-- Same brand and coordinates as `c1recA`, different address. -/
def c1recB : Rec :=
  { blankRec with brand := some "x", address := some "b", latitude := some 41, longitude := some 29 }

/-- Claim C1, counterexample: two records with the same brand, no branch and
identical 6-decimal rounded coordinates nevertheless receive different dedup
keys, because `dedupe_key` also folds the normalized address into the key. -/
theorem dedupe_key_same_coords_counterexample :
    c1recA.brand = c1recB.brand ∧ c1recA.branch = none ∧ c1recB.branch = none ∧
    coordKey c1recA = coordKey c1recB ∧ (coordKey c1recA).isSome = true ∧
    dedupe_key c1recA ≠ dedupe_key c1recB := by
  have hA : dedupe_key c1recA = .coord_addr "x" (round6 41, round6 29) "a" := rfl
  have hB : dedupe_key c1recB = .coord_addr "x" (round6 41, round6 29) "b" := rfl
  refine ⟨rfl, rfl, rfl, rfl, rfl, ?_⟩
  rw [hA, hB]
  intro h
  injection h with h1 h2 h3
  exact absurd h3 (by decide)

/-- Claim C1 (amended): a record with a non-empty normalized branch never
shares a dedup key with a branch-less record; and two records with the same
brand, no branch, coordinates rounding to the same 6-decimal pair, the same
normalized address key and the same normalized phone key collapse to the same
dedup key. -/
theorem dedupe_key_tiering_amended :
    (∀ r1 r2 : Rec, normalize_text r1.branch ≠ "" → r2.branch = none →
      r1.brand = r2.brand → r1.address = r2.address →
      dedupe_key r1 ≠ dedupe_key r2) ∧
    (∀ r1 r2 : Rec, r1.branch = none → r2.branch = none → r1.brand = r2.brand →
      coordKey r1 = coordKey r2 → (coordKey r1).isSome →
      addrKey r1 = addrKey r2 → phoneKey r1 = phoneKey r2 →
      dedupe_key r1 = dedupe_key r2) := by
  constructor
  · intro r1 r2 h1 h2 _ _ heq
    have hb2 : normalize_text r2.branch = "" := by rw [h2]; rfl
    unfold dedupe_key at heq
    rw [if_pos h1, if_neg (by rw [hb2]; simp)] at heq
    revert heq
    cases coordKey r2 with
    | none => simp
    | some c =>
      by_cases ha : addrKey r2 ≠ "" <;> simp [ha]
  · intro r1 r2 h1 h2 hbrand hcoord hsome haddr hphone
    have hb1 : normalize_text r1.branch = "" := by rw [h1]; rfl
    have hb2 : normalize_text r2.branch = "" := by rw [h2]; rfl
    obtain ⟨c, hc⟩ := Option.isSome_iff_exists.mp hsome
    unfold dedupe_key
    rw [if_neg (by rw [hb1]; simp), if_neg (by rw [hb2]; simp),
      hbrand, ← hcoord, hc, haddr, hphone]

/-- Claim C1 witness: the amended theorem applied to concrete records — a
branched record versus a branch-less one never collapse, and two branch-less
records agreeing on brand, rounded coordinates, address key and phone key do
collapse. -/
theorem dedupe_key_tiering_amended_witness :
    dedupe_key { blankRec with brand := some "x", branch := some "Kadıköy", address := some "a" } ≠
      dedupe_key { blankRec with brand := some "x", branch := none, address := some "a" } ∧
    dedupe_key c1recA =
      dedupe_key { c1recA with phone := some " " } := by
  constructor
  · exact dedupe_key_tiering_amended.1
      { blankRec with brand := some "x", branch := some "Kadıköy", address := some "a" }
      { blankRec with brand := some "x", branch := none, address := some "a" }
      (by decide) rfl rfl rfl
  · exact dedupe_key_tiering_amended.2 c1recA { c1recA with phone := some " " }
      rfl rfl rfl rfl (by decide) (by decide) (by decide)

/-- A record whose only quality signal is the canonical map URL (score 5). -/
def c2recA : Rec :=
  { blankRec with brand := some "x", branch := some "m", address := some "addr",
                  maps_url := some "https://maps.example/a" }

/-- A record without a map URL but with every other quality signal
(score 5.5), colliding with `c2recA` on the dedup key. -/
def c2recB : Rec :=
  { blankRec with brand := some "x", branch := some "m", resolved_address := some "addr",
                  resolved_phone := some "p", resolved_website := some "w",
                  extra_info := some "e", geocode_provider := some "google" }

/-- Claim C2, counterexample: two colliding records, one with a map URL and
one without; the record *without* the map URL is retained in both insertion
orders, because its other quality fields outweigh the map-URL weight
(5.5 > 5). -/
theorem map_url_tiebreak_counterexample :
    dedupe_key c2recA = dedupe_key c2recB ∧
    truthy c2recA.maps_url = true ∧ truthy c2recB.maps_url = false ∧
    deduplicate_records [c2recA, c2recB] = [c2recB] ∧
    deduplicate_records [c2recB, c2recA] = [c2recB] := by
  have hk : dedupe_key c2recA = dedupe_key c2recB := rfl
  have hA : record_quality c2recA = 5 := by
    unfold record_quality
    rw [if_pos (by decide), if_neg (by decide), if_neg (by decide),
      if_neg (by decide), if_neg (by decide), if_neg (by decide)]
    norm_num
  have hB : record_quality c2recB = 11 / 2 := by
    unfold record_quality
    rw [if_neg (by decide), if_pos (by decide), if_pos (by decide),
      if_pos (by decide), if_pos (by decide), if_pos (by decide)]
    norm_num
  have hlt : record_quality c2recA < record_quality c2recB := by
    rw [hA, hB]; norm_num
  exact ⟨hk, by decide, by decide,
    deduplicate_pair_second c2recA c2recB hk hlt,
    deduplicate_pair_first c2recB c2recA hk.symm (lt_asymm hlt)⟩

/-- Claim C2 (amended): among two colliding records that agree on the presence
of every other quality signal (resolved address/phone/website, extra info and
the google-provider bonus), the one with the canonical map URL is retained
regardless of insertion order. -/
theorem map_url_tiebreak_amended (a b : Rec)
    (hk : dedupe_key a = dedupe_key b)
    (ha : truthy a.maps_url = true) (hb : truthy b.maps_url = false)
    (h1 : truthy a.resolved_address = truthy b.resolved_address)
    (h2 : truthy a.resolved_phone = truthy b.resolved_phone)
    (h3 : truthy a.resolved_website = truthy b.resolved_website)
    (h4 : truthy a.extra_info = truthy b.extra_info)
    (h5 : lowerStr (a.geocode_provider.getD "") = lowerStr (b.geocode_provider.getD "")) :
    deduplicate_records [a, b] = [a] ∧ deduplicate_records [b, a] = [a] := by
  have hq : record_quality b < record_quality a := by
    unfold record_quality
    rw [ha, hb, h1, h2, h3, h4, h5]
    simp only [if_true, Bool.false_eq_true, if_false]
    have hx : (0 : ℚ) < 5 := by norm_num
    linarith
  exact ⟨deduplicate_pair_first a b hk (lt_asymm hq),
    deduplicate_pair_second b a hk.symm hq⟩

/-- Claim C2 witness: the amended tie-break applied to two concrete colliding
records differing only in the presence of the map URL. -/
theorem map_url_tiebreak_amended_witness :
    deduplicate_records [c2recA, { c2recA with maps_url := none }] = [c2recA] ∧
    deduplicate_records [{ c2recA with maps_url := none }, c2recA] = [c2recA] := by
  exact map_url_tiebreak_amended c2recA { c2recA with maps_url := none }
    (by decide) (by decide) (by decide) rfl rfl rfl rfl rfl

end DedupTheorems

section GeocodeTheorems

/-- Claim C4: the provider chain of `geocode_records` tries providers strictly
in configured order; a provider that raises or returns `None` is a failure and
the next is tried; the first provider returning a non-null result stops the
chain and names the stored `geocode_provider`; one delay interval elapses per
attempt (failed ones included). -/
theorem geocoder_chain_first_success (pre rest : List GeoProvider)
    (name : String) (f : String → Except Unit (Option GeoLoc)) (q : String) (loc : GeoLoc)
    (hpre : ∀ p ∈ pre, runProvider p.2 q = none)
    (hf : runProvider f q = some loc) :
    try_geocoders (pre ++ (name, f) :: rest) q = (some (name, loc), pre.length + 1) := by
  induction pre with
  | nil =>
    simp only [List.nil_append, try_geocoders, hf, List.length_nil]
  | cons p ps ih =>
    obtain ⟨pname, pf⟩ := p
    have hp : runProvider pf q = none := hpre (pname, pf) (List.mem_cons_self _ _)
    have hps : ∀ p ∈ ps, runProvider p.2 q = none := fun p hm => hpre p (List.mem_cons_of_mem _ hm)
    simp only [List.cons_append, try_geocoders, hp, List.length_cons, List.append_eq]
    rw [ih hps]

/-- Claim C4 witness: with providers `[A, B]` where `A` always raises and `B`
always succeeds, the chain resolves with provider name `"B"` and two delay
intervals (one for A's failure, one for B's success). -/
theorem geocoder_chain_first_success_witness :
    try_geocoders
      [("A", fun _ => .error ()),
       ("B", fun _ => .ok (some ⟨41, 29, none, none, none, none, none, none⟩))]
      "q" =
    (some ("B", ⟨41, 29, none, none, none, none, none, none⟩), 2) := by
  exact geocoder_chain_first_success [("A", fun _ => .error ())] []
    "B" (fun _ => .ok (some ⟨41, 29, none, none, none, none, none, none⟩)) "q"
    ⟨41, 29, none, none, none, none, none, none⟩
    (by intro p hp; simp only [List.mem_singleton] at hp; subst hp; rfl)
    rfl

/-- Helper for claim C5: a row that already has both coordinates is returned
unchanged with zero provider attempts when `force` is off. -/
theorem process_geocode_row_skips_resolved (geocoders : List GeoProvider) (now : String)
    (row : LocRow) (hla : row.latitude.isSome) (hlo : row.longitude.isSome) :
    process_geocode_row geocoders false now row = (row, 0) := by
  unfold process_geocode_row
  by_cases ha : truthy row.address = true
  · rw [if_neg (by simp [ha]), if_pos ⟨hla, hlo, by simp⟩]
  · rw [if_pos (by simpa using ha)]

/-- Claim C5: running `geocode_records` without `force` over rows that all
already carry coordinates changes nothing and performs zero provider calls —
no geocoder is invoked for an already-resolved row and none of its columns are
modified. -/
theorem geocode_idempotent_skip (geocoders : List GeoProvider) (now : String)
    (rows : List LocRow)
    (hres : ∀ r ∈ rows, r.latitude.isSome ∧ r.longitude.isSome) :
    geocode_records geocoders false now rows = (rows, 0) := by
  unfold geocode_records
  by_cases hg : geocoders.isEmpty
  · rw [if_pos hg]
  · rw [if_neg hg]
    have key : ∀ (acc : List LocRow),
        rows.foldl
          (fun acc row =>
            let pr := process_geocode_row geocoders false now row
            (acc.1 ++ [pr.1], acc.2 + pr.2))
          (acc, 0) = (acc ++ rows, 0) := by
      induction rows with
      | nil => intro acc; simp
      | cons r rs ih =>
        intro acc
        have hr := hres r (List.mem_cons_self _ _)
        have hrs : ∀ x ∈ rs, x.latitude.isSome ∧ x.longitude.isSome :=
          fun x hx => hres x (List.mem_cons_of_mem _ hx)
        simp only [List.foldl_cons,
          process_geocode_row_skips_resolved geocoders now r hr.1 hr.2]
        rw [ih hrs (acc ++ [r])]
        simp
    simpa using key []

/-- Claim C5 witness: a resolved row is skipped even with an eager provider
configured. -/
theorem geocode_idempotent_skip_witness :
    geocode_records
      [("A", fun _ => .ok (some ⟨1, 2, none, none, none, none, none, none⟩))] false "t"
      [⟨1, "Brand", none, some "Addr", some 41, some 29,
        none, none, none, none, none, none, "t0"⟩] =
    ([⟨1, "Brand", none, some "Addr", some 41, some 29,
        none, none, none, none, none, none, "t0"⟩], 0) := by
  exact geocode_idempotent_skip
    [("A", fun _ => .ok (some ⟨1, 2, none, none, none, none, none, none⟩))] "t"
    [⟨1, "Brand", none, some "Addr", some 41, some 29,
      none, none, none, none, none, none, "t0"⟩]
    (by intro r hr; simp only [List.mem_singleton] at hr; subst hr; exact ⟨rfl, rfl⟩)

end GeocodeTheorems

section MenuTheorems

/-- Helper: when no JSON-LD block qualifies, structured-data extraction yields
nothing. -/
theorem extract_structured_data_eq_none (blocks : List JsonLd)
    (h : ∀ b ∈ blocks, structuredOfBlock b = none) :
    extract_structured_data blocks = none := by
  have key : ∀ acc : Option String,
      blocks.foldl
        (fun acc b =>
          match structuredOfBlock b with
          | some p => some p
          | none => acc)
        acc = acc := by
    induction blocks with
    | nil => intro acc; rfl
    | cons b bs ih =>
      intro acc
      have hb : structuredOfBlock b = none := h b (List.mem_cons_self _ _)
      have hbs : ∀ x ∈ bs, structuredOfBlock x = none :=
        fun x hx => h x (List.mem_cons_of_mem _ hx)
      simp only [List.foldl_cons, hb]
      exact ih hbs acc
  exact key none

/-- A document that, despite non-empty text and navigation content, matches no
menu-item pattern, no currency pattern and no qualifying structured data. -/
def c8doc : HtmlDoc :=
  ⟨[⟨some "About us"⟩], [], [⟨"Welcome to our site", none⟩],
   [.malformed, .dict (some "Organization") "org", .arr [none]], [⟨"Contact"⟩]⟩

/-- Claim C8: an HTML input with no element matching the menu-item class
patterns, no currency-pattern text match and no qualifying structured-data
block makes `extract_menu_generic` return `None`, not an empty menu
document. -/
theorem menu_extraction_minimality (doc : HtmlDoc) (url : String)
    (h1 : doc.menuItems = [])
    (h2 : ∀ t ∈ doc.textElems, t.priceLineMatch = none)
    (h3 : ∀ b ∈ doc.jsonLdBlocks, structuredOfBlock b = none) :
    extract_menu_generic doc url = none := by
  have hi1 : (doc.menuItems.take 100).filterMap extract_item_details = [] := by
    rw [h1]; rfl
  have hi2 : extract_from_text doc.textElems = [] := by
    unfold extract_from_text
    rw [List.filterMap_eq_nil_iff]
    intro e he
    have := h2 e (List.mem_of_mem_take he)
    rw [this]
    simp
  have hs : extract_structured_data doc.jsonLdBlocks = none :=
    extract_structured_data_eq_none doc.jsonLdBlocks h3
  unfold extract_menu_generic
  rw [hi1, hs]
  simp [hi2]

/-- Claim C8 witness: `extract_menu_generic` on the concrete pattern-free
document `c8doc` returns `None`. -/
theorem menu_extraction_minimality_witness :
    extract_menu_generic c8doc "https://example.com" = none := by
  exact menu_extraction_minimality c8doc "https://example.com" rfl
    (by intro t ht; simp only [c8doc, List.mem_singleton] at ht; subst ht; rfl)
    (by
      intro b hb
      simp only [c8doc, List.mem_cons, List.mem_singleton] at hb
      rcases hb with h | h | h | h
      · subst h; rfl
      · subst h; decide
      · subst h; rfl
      · cases h)

/-- A document whose only menu signal is a qualifying JSON-LD block. -/
def c3doc : HtmlDoc :=
  ⟨[], [], [], [.dict (some "Restaurant") "ldpayload"], []⟩

/-- Claim C3, counterexample: on a document whose only content is a
structured-data block, `extract_menu_generic` returns a *successful* result
with zero extracted items, contradicting the claim that a structured-data-only
payload is not returned as a success. -/
theorem structured_data_only_success :
    extract_menu_generic c3doc "u" = some ⟨"website", "u", [], [], some "ldpayload"⟩ ∧
    (MenuData.mk "website" "u" [] [] (some "ldpayload")).items = [] := by
  exact ⟨by decide, rfl⟩

/-- Claim C3 (amended): `extract_menu_generic` returns a non-null result only
if the result has at least one item *or* an embedded structured-data payload;
a structured-data-only result with zero items is returned as a success. -/
theorem menu_nonempty_amended (doc : HtmlDoc) (url : String) (d : MenuData)
    (h : extract_menu_generic doc url = some d) :
    ¬ d.items.isEmpty ∨ d.structured_data.isSome := by
  simp only [extract_menu_generic] at h
  split at h
  · split at h
    · next hc =>
        injection h with h'
        subst h'
        exact hc
    · cases h
  · split at h
    · next hc =>
        injection h with h'
        subst h'
        exact hc
    · cases h

/-- A document with a single structurally matched menu item. -/
def c3witnessDoc : HtmlDoc :=
  ⟨[], [⟨some "Adana Kebap", some "₺150", none, none, none⟩], [], [], []⟩

/-- Claim C3 witness: the amended theorem applied to a concrete successful
extraction. -/
theorem menu_nonempty_amended_witness :
    ¬ (MenuData.mk "website" "u" [⟨"Adana Kebap", some "₺150", none, none⟩] [] none).items.isEmpty ∨
    (MenuData.mk "website" "u" [⟨"Adana Kebap", some "₺150", none, none⟩] [] none).structured_data.isSome := by
  exact menu_nonempty_amended c3witnessDoc "u"
    (MenuData.mk "website" "u" [⟨"Adana Kebap", some "₺150", none, none⟩] [] none)
    (by decide)

/-- Claim C7: in the per-venue loop of `scrape_menus`, a non-empty website
extraction short-circuits the chain — the Google Maps scraper is not invoked
(zero calls) and provenance is `"website"`; when the website step yields
nothing (absent/empty website or failed extraction) and a maps URL exists, the
Google Maps scraper is invoked and, on success, provenance is
`"google_maps"`. -/
theorem menu_source_fallback_short_circuit :
    (∀ (sw sm : String → Option MenuData) (website maps_url : Option String) (m : MenuData),
      truthy website = true → sw (website.getD "") = some m →
      process_venue sw sm website maps_url = ⟨some m, some "website", 1, 0⟩) ∧
    (∀ (sw sm : String → Option MenuData) (website maps_url : Option String) (m : MenuData),
      (truthy website = false ∨ sw (website.getD "") = none) →
      truthy maps_url = true → sm (maps_url.getD "") = some m →
      process_venue sw sm website maps_url =
        ⟨some m, some "google_maps", if truthy website then 1 else 0, 1⟩) := by
  constructor
  · intro sw sm website maps_url m hw hsw
    simp [process_venue, hw, hsw]
  · intro sw sm website maps_url m hw hm hsm
    rcases hw with hw | hw
    · simp [process_venue, hw, hm, hsm]
    · by_cases hweb : truthy website = true
      · simp [process_venue, hweb, hw, hm, hsm]
      · simp only [Bool.not_eq_true] at hweb
        simp [process_venue, hweb, hm, hsm]

/-- Claim C7 witness: both branches of the short-circuit on concrete scrapers
— a succeeding website scraper suppresses the maps scraper, and a failing
website scraper falls back to the maps scraper. -/
theorem menu_source_fallback_short_circuit_witness :
    process_venue (fun _ => some (MenuData.mk "website" "w" [] [] (some "x")))
      (fun _ => some (MenuData.mk "google_maps" "g" [] [] none))
      (some "https://site") (some "https://maps") =
      ⟨some (MenuData.mk "website" "w" [] [] (some "x")), some "website", 1, 0⟩ ∧
    process_venue (fun _ => none)
      (fun _ => some (MenuData.mk "google_maps" "g" [] [] none))
      (some "https://site") (some "https://maps") =
      ⟨some (MenuData.mk "google_maps" "g" [] [] none), some "google_maps", 1, 1⟩ := by
  constructor
  · exact menu_source_fallback_short_circuit.1
      (fun _ => some (MenuData.mk "website" "w" [] [] (some "x")))
      (fun _ => some (MenuData.mk "google_maps" "g" [] [] none))
      (some "https://site") (some "https://maps")
      (MenuData.mk "website" "w" [] [] (some "x")) (by decide) rfl
  · exact menu_source_fallback_short_circuit.2
      (fun _ => none)
      (fun _ => some (MenuData.mk "google_maps" "g" [] [] none))
      (some "https://site") (some "https://maps")
      (MenuData.mk "google_maps" "g" [] [] none) (Or.inr rfl) (by decide) rfl

end MenuTheorems

section AddressTheorems

/-- Claim C9, counterexample: `normalise_address` also strips a label with an
`=` separator and does *not* trim trailing punctuation other than commas and
semicolons, so on `"adres= abc."` the source function and the function built
from the claim's wording disagree. -/
theorem normalise_address_counterexample :
    normalise_address (some "adres= abc.") = some "abc." ∧
    normalise_address_claim (some "adres= abc.") = some "adres= abc" ∧
    (some "abc." : Option String) ≠ some "adres= abc" := by
  refine ⟨by decide, by decide, by decide⟩

/-- Claim C9 (amended): `normalise_address` is a pure function that, in order,
trims surrounding whitespace, strips a leading case-insensitive
`adres`/`address` label followed by `:` or `=` (with optional surrounding
whitespace), replaces `" / "` and `" - "` separators with `", "`, collapses
internal whitespace runs to one space, and trims leading/trailing commas,
semicolons and spaces; it returns null exactly when the input is null/empty or
the cleaned result is empty. -/
theorem normalise_address_amended_contract :
    ∀ a : Option String,
      normalise_address a = normalise_address_amended a ∧
      (normalise_address a = none ↔
        a = none ∨ a = some "" ∨ (cleanAddress ((a.getD "").data)).isEmpty = true) := by
  intro a
  cases a with
  | none => exact ⟨rfl, by simp [normalise_address]⟩
  | some s =>
    constructor
    · by_cases hs : s = ""
      · subst hs; rfl
      · simp only [normalise_address, normalise_address_amended, if_neg hs]
        rfl
    · by_cases hs : s = ""
      · subst hs; simp [normalise_address]
      · simp only [normalise_address, if_neg hs]
        by_cases he : (cleanAddress s.data).isEmpty = true
        · simp [he, hs]
        · simp [he, hs]

end AddressTheorems

section UpsertTheorems

/-- Helper: a found row's key is the searched key. -/
theorem row_by_key_eq_key (t : List DbRow)
    (k : Option String × Option String × Option String) (row : DbRow) :
    row_by_key t k = some row → row.unique_key = k := by
  induction t with
  | nil => intro h; cases h
  | cons r rs ih =>
    intro h
    unfold row_by_key at h
    by_cases hk : r.unique_key = k
    · rw [if_pos hk] at h; injection h with h'; subst h'; exact hk
    · rw [if_neg hk] at h; exact ih h

/-- Helper: searching a mapped table, when the map preserves keys, finds the
mapped row. -/
theorem row_by_key_map (t : List DbRow) (k : Option String × Option String × Option String)
    (f : DbRow → DbRow) (hf : ∀ row, (f row).unique_key = row.unique_key) :
    row_by_key (t.map f) k = (row_by_key t k).map f := by
  induction t with
  | nil => rfl
  | cons r rs ih =>
    rw [List.map_cons]
    unfold row_by_key
    rw [hf r]
    by_cases hk : r.unique_key = k
    · rw [if_pos hk, if_pos hk]; rfl
    · rw [if_neg hk, if_neg hk]; exact ih

/-- Helper: a search that succeeds on a table still succeeds after rows are
appended. -/
theorem row_by_key_append (t t2 : List DbRow)
    (k : Option String × Option String × Option String) (row : DbRow) :
    row_by_key t k = some row → row_by_key (t ++ t2) k = some row := by
  induction t with
  | nil => intro h; cases h
  | cons r rs ih =>
    intro h
    rw [List.cons_append]
    unfold row_by_key at h ⊢
    by_cases hk : r.unique_key = k
    · rw [if_pos hk] at h ⊢; exact h
    · rw [if_neg hk] at h ⊢; exact ih h

/-- Helper: `update_row` does not change the unique key. -/
theorem update_row_key (row : DbRow) (r : RawRecord) (payload now : String) :
    (update_row row r payload now).unique_key = row.unique_key := rfl

/-- Helper: one upsert step preserves the presence and the enrichment columns
of every row already in the table. -/
theorem upsert_one_preserves (t : List DbRow) (r : RawRecord) (payload now : String)
    (k : Option String × Option String × Option String) (row : DbRow)
    (h : row_by_key t k = some row) :
    ∃ row', row_by_key (upsert_one t r payload now) k = some row' ∧
      enrichment row' = enrichment row := by
  unfold upsert_one
  by_cases hex : (row_by_key t (record_key r)).isSome = true
  · rw [if_pos hex]
    have hf : ∀ rr : DbRow,
        ((fun rr => if rr.unique_key = record_key r then update_row rr r payload now else rr) rr).unique_key
          = rr.unique_key := by
      intro rr
      by_cases hk : rr.unique_key = record_key r
      · simp [hk, update_row_key]
      · simp [hk]
    rw [row_by_key_map t k _ hf, h]
    by_cases hk : row.unique_key = record_key r
    · exact ⟨update_row row r payload now, by simp [hk], rfl⟩
    · exact ⟨row, by simp [hk], rfl⟩
  · rw [if_neg hex]
    exact ⟨row, row_by_key_append t [new_row r payload now] k row h, rfl⟩

/-- Claim C10: re-ingestion upsert preserves enrichment.  First part: when a
record's `(brand, branch, address)` key already exists, `upsert_one` rewrites
only the listed raw columns (brand, branch, address, phone, website,
extra_info, raw_payload, last_updated) of that row to the record's values and
leaves the ten enrichment columns (latitude, longitude, geocode_provider,
resolved_address, resolved_phone, resolved_website, geocode_place_id,
geocode_maps_url, menu_data, menu_source) unchanged.  Second part: a full
`upsert_locations` run over any record batch keeps, for every pre-existing
key, a row whose enrichment columns are unchanged. -/
theorem upsert_preserves_enrichment :
    (∀ (t : List DbRow) (r : RawRecord) (payload now : String) (row : DbRow),
      row_by_key t (record_key r) = some row →
      row_by_key (upsert_one t r payload now) (record_key r) =
          some (update_row row r payload now) ∧
        enrichment (update_row row r payload now) = enrichment row ∧
        (update_row row r payload now).brand = r.brand ∧
        (update_row row r payload now).branch = r.branch ∧
        (update_row row r payload now).address = r.address ∧
        (update_row row r payload now).phone = r.phone ∧
        (update_row row r payload now).website = r.website ∧
        (update_row row r payload now).extra_info = r.extra_info ∧
        (update_row row r payload now).raw_payload = some payload ∧
        (update_row row r payload now).last_updated = now) ∧
    (∀ (t : List DbRow) (rs : List (RawRecord × String)) (now : String)
       (k : Option String × Option String × Option String) (row : DbRow),
      row_by_key t k = some row →
      ∃ row', row_by_key (upsert_locations t rs now) k = some row' ∧
        enrichment row' = enrichment row) := by
  constructor
  · intro t r payload now row h
    have hex : (row_by_key t (record_key r)).isSome = true := by rw [h]; rfl
    have hkey : row.unique_key = record_key r := row_by_key_eq_key t _ row h
    have hf : ∀ rr : DbRow,
        ((fun rr => if rr.unique_key = record_key r then update_row rr r payload now else rr) rr).unique_key
          = rr.unique_key := by
      intro rr
      by_cases hk : rr.unique_key = record_key r
      · simp [hk, update_row_key]
      · simp [hk]
    refine ⟨?_, rfl, rfl, rfl, rfl, rfl, rfl, rfl, rfl, rfl⟩
    unfold upsert_one
    rw [if_pos hex, row_by_key_map t _ _ hf, h]
    simp [hkey]
  · intro t rs now k row h
    induction rs generalizing t row with
    | nil => exact ⟨row, h, rfl⟩
    | cons rp rps ih =>
      obtain ⟨row', h', he⟩ := upsert_one_preserves t rp.1 rp.2 now k row h
      obtain ⟨row'', h'', he'⟩ := ih (upsert_one t rp.1 rp.2 now) row' h'
      exact ⟨row'', h'', he'.trans he⟩

/-- A concrete enriched database row for the upsert witness. -/
def c10row : DbRow :=
  ⟨(some "B", some "Br", some "A"), some "B", some "Br", some "A", some "P",
   some "W", some "E", some 41, some 29, some "google", some "RA", some "RP",
   some "RW", some "PID", some "MU", some "old", "t0", some "menujson",
   some "website", some "t0"⟩

/-- The re-ingested record with the same `(brand, branch, address)` key. -/
def c10rec : RawRecord :=
  ⟨some "B", some "Br", some "A", some "P2", some "W2", some "E2", none, none⟩

/-- Claim C10 witness: the per-record part of the theorem applied to a
concrete enriched row and a re-ingested record with the same key. -/
theorem upsert_preserves_enrichment_witness :
    row_by_key (upsert_one [c10row] c10rec "payload2" "t1") (record_key c10rec) =
        some (update_row c10row c10rec "payload2" "t1") ∧
      enrichment (update_row c10row c10rec "payload2" "t1") = enrichment c10row ∧
      (update_row c10row c10rec "payload2" "t1").brand = c10rec.brand ∧
      (update_row c10row c10rec "payload2" "t1").branch = c10rec.branch ∧
      (update_row c10row c10rec "payload2" "t1").address = c10rec.address ∧
      (update_row c10row c10rec "payload2" "t1").phone = c10rec.phone ∧
      (update_row c10row c10rec "payload2" "t1").website = c10rec.website ∧
      (update_row c10row c10rec "payload2" "t1").extra_info = c10rec.extra_info ∧
      (update_row c10row c10rec "payload2" "t1").raw_payload = some "payload2" ∧
      (update_row c10row c10rec "payload2" "t1").last_updated = "t1" := by
  exact upsert_preserves_enrichment.1 [c10row] c10rec "payload2" "t1" c10row rfl

end UpsertTheorems

section DedupeFirstMax

/-- `r` is the first record of maximal quality in `l`: everything before it
scores strictly lower, everything after it scores no higher. -/
def first_max (r : Rec) (l : List Rec) : Prop :=
  ∃ l₁ l₂, l = l₁ ++ r :: l₂ ∧
    (∀ s ∈ l₁, record_quality s < record_quality r) ∧
    (∀ s ∈ l₂, record_quality s ≤ record_quality r)

/-- The invariant of the `deduplicate_records` fold: the dictionary `m`
represents the processed prefix `p` — entries are keyed coherently, keys are
unique, exactly the keys occurring in `p` are present, and each entry is the
first maximal-quality record of its key group. -/
def dedupe_rep (m : List (DKey × Rec)) (p : List Rec) : Prop :=
  (∀ e ∈ m, dedupe_key e.2 = e.1) ∧
  (m.map Prod.fst).Nodup ∧
  (∀ k : DKey, lookupKey m k = none ↔ key_group k p = []) ∧
  (∀ (k : DKey) (r : Rec), lookupKey m k = some r → first_max r (key_group k p))

/-- Helper: key lookup fails exactly off the key list. -/
theorem lookupKey_eq_none (m : List (DKey × Rec)) (k : DKey) :
    lookupKey m k = none ↔ k ∉ m.map Prod.fst := by
  induction m with
  | nil => simp [lookupKey]
  | cons e rest ih =>
    obtain ⟨k', r⟩ := e
    unfold lookupKey
    by_cases hk : k' = k
    · simp [hk]
    · simp only [if_neg hk, ih, List.map_cons, List.mem_cons]
      constructor
      · intro h hm
        rcases hm with hm | hm
        · exact hk hm.symm
        · exact h hm
      · intro h hm
        exact h (Or.inr hm)

/-- Helper: appending entries does not disturb a successful lookup. -/
theorem lookupKey_append_some (m m2 : List (DKey × Rec)) (k : DKey) (r : Rec) :
    lookupKey m k = some r → lookupKey (m ++ m2) k = some r := by
  induction m with
  | nil => intro h; cases h
  | cons e rest ih =>
    intro h
    obtain ⟨k', r'⟩ := e
    rw [List.cons_append]
    unfold lookupKey at h ⊢
    by_cases hk : k' = k
    · rw [if_pos hk] at h ⊢; exact h
    · rw [if_neg hk] at h ⊢; exact ih h

/-- Helper: looking up through an appended singleton after a failed lookup. -/
theorem lookupKey_append_none (m : List (DKey × Rec)) (k k0 : DKey) (r : Rec) :
    lookupKey m k = none →
    lookupKey (m ++ [(k0, r)]) k = if k0 = k then some r else none := by
  induction m with
  | nil => intro; rfl
  | cons e rest ih =>
    intro h
    obtain ⟨k', r'⟩ := e
    rw [List.cons_append]
    unfold lookupKey at h ⊢
    by_cases hk : k' = k
    · rw [if_pos hk] at h; cases h
    · rw [if_neg hk] at h ⊢; exact ih h

/-- Helper: `dictInsert` finds its own key. -/
theorem dictInsert_lookup_self (m : List (DKey × Rec)) (k : DKey) (r : Rec) :
    lookupKey (dictInsert m k r) k = some r := by
  induction m with
  | nil => simp [dictInsert, lookupKey]
  | cons e rest ih =>
    obtain ⟨k', r'⟩ := e
    unfold dictInsert
    by_cases hk : k' = k
    · rw [if_pos hk]; unfold lookupKey; rw [if_pos hk]
    · rw [if_neg hk]; unfold lookupKey; rw [if_neg hk]; exact ih

/-- Helper: `dictInsert` leaves other keys' lookups unchanged. -/
theorem dictInsert_lookup_other (m : List (DKey × Rec)) (k k' : DKey) (r : Rec)
    (hne : k' ≠ k) : lookupKey (dictInsert m k r) k' = lookupKey m k' := by
  induction m with
  | nil =>
    unfold dictInsert lookupKey
    rw [if_neg (fun h => hne h.symm)]
    rfl
  | cons e rest ih =>
    obtain ⟨k0, r0⟩ := e
    unfold dictInsert
    by_cases hk : k0 = k
    · rw [if_pos hk]
      have hne2 : ¬ k0 = k' := by
        rw [hk]
        exact fun h => hne h.symm
      unfold lookupKey
      rw [if_neg hne2, if_neg hne2]
    · rw [if_neg hk]
      unfold lookupKey
      by_cases hk' : k0 = k'
      · rw [if_pos hk', if_pos hk']
      · rw [if_neg hk', if_neg hk']
        exact ih

/-- Helper: the key list after `dictInsert`. -/
theorem dictInsert_keys (m : List (DKey × Rec)) (k : DKey) (r : Rec) :
    (dictInsert m k r).map Prod.fst =
      if k ∈ m.map Prod.fst then m.map Prod.fst else m.map Prod.fst ++ [k] := by
  induction m with
  | nil => simp [dictInsert]
  | cons e rest ih =>
    obtain ⟨k', r'⟩ := e
    unfold dictInsert
    by_cases hk : k' = k
    · rw [if_pos hk]
      simp [hk]
    · rw [if_neg hk]
      simp only [List.map_cons, ih, List.mem_cons]
      by_cases hm : k ∈ rest.map Prod.fst
      · rw [if_pos hm, if_pos (Or.inr hm)]
      · rw [if_neg hm, if_neg (by
          intro hor
          rcases hor with hor | hor
          · exact hk hor.symm
          · exact hm hor)]
        rfl

/-- Helper: `dictInsert` keeps entries coherent with their keys. -/
theorem dictInsert_coherent (m : List (DKey × Rec)) (k : DKey) (r : Rec)
    (hcoh : ∀ e ∈ m, dedupe_key e.2 = e.1) (hr : dedupe_key r = k) :
    ∀ e ∈ dictInsert m k r, dedupe_key e.2 = e.1 := by
  induction m with
  | nil =>
    intro e he
    simp only [dictInsert, List.mem_singleton] at he
    subst he
    exact hr
  | cons e0 rest ih =>
    obtain ⟨k', r'⟩ := e0
    intro e he
    unfold dictInsert at he
    by_cases hk : k' = k
    · rw [if_pos hk] at he
      rcases List.mem_cons.mp he with he | he
      · subst he; rw [hr, hk]
      · exact hcoh e (List.mem_cons_of_mem _ he)
    · rw [if_neg hk] at he
      rcases List.mem_cons.mp he with he | he
      · subst he; exact hcoh (k', r') (List.mem_cons_self _ _)
      · exact ih (fun x hx => hcoh x (List.mem_cons_of_mem _ hx)) e he

/-- Helper: the key group of an extended prefix. -/
theorem key_group_append (k : DKey) (p : List Rec) (r : Rec) :
    key_group k (p ++ [r]) =
      key_group k p ++ (if dedupe_key r = k then [r] else []) := by
  unfold key_group
  rw [List.filter_append]
  by_cases hk : dedupe_key r = k
  · simp [hk]
  · simp [hk]

/-- Helper: the fold step of `deduplicate_records` preserves the dictionary
invariant. -/
theorem dedupe_rep_step (m : List (DKey × Rec)) (p : List Rec) (r : Rec)
    (hrep : dedupe_rep m p) : dedupe_rep (dedupe_step m r) (p ++ [r]) := by
  obtain ⟨hcoh, hnd, hnone, hfm⟩ := hrep
  cases hl : lookupKey m (dedupe_key r) with
  | none =>
    have hstep : dedupe_step m r = m ++ [(dedupe_key r, r)] := by
      simp only [dedupe_step, hl]
    rw [hstep]
    refine ⟨?_, ?_, ?_, ?_⟩
    · intro e he
      rcases List.mem_append.mp he with he | he
      · exact hcoh e he
      · simp only [List.mem_singleton] at he
        subst he
        rfl
    · rw [List.map_append]
      simp only [List.map, List.nodup_append, List.nodup_cons, List.nodup_nil]
      refine ⟨hnd, ⟨by simp, by simp⟩, ?_⟩
      intro a ha hb
      simp only [List.mem_singleton] at hb
      subst hb
      exact ((lookupKey_eq_none m (dedupe_key r)).mp hl) ha
    · intro k
      rw [key_group_append]
      cases hmk : lookupKey m k with
      | some x =>
        rw [lookupKey_append_some m [(dedupe_key r, r)] k x hmk]
        have hne : key_group k p ≠ [] := by
          intro hh
          rw [(hnone k).mpr hh] at hmk
          cases hmk
        constructor
        · intro h; cases h
        · intro h
          exact absurd (List.append_eq_nil.mp h).1 hne
      | none =>
        rw [lookupKey_append_none m k (dedupe_key r) r hmk]
        rw [(hnone k).mp hmk, List.nil_append]
        by_cases hk : dedupe_key r = k
        · rw [if_pos hk, if_pos hk]
          simp
        · rw [if_neg hk, if_neg hk]
          simp
    · intro k x hx
      rw [key_group_append]
      cases hmk : lookupKey m k with
      | some y =>
        have hk : ¬ dedupe_key r = k := by
          intro hh
          rw [hh, hmk] at hl
          cases hl
        rw [lookupKey_append_some m [(dedupe_key r, r)] k y hmk] at hx
        injection hx with hx
        subst hx
        rw [if_neg hk, List.append_nil]
        exact hfm k y hmk
      | none =>
        rw [lookupKey_append_none m k (dedupe_key r) r hmk] at hx
        by_cases hk : dedupe_key r = k
        · rw [if_pos hk] at hx
          injection hx with hx
          subst hx
          rw [if_pos hk, (hnone k).mp hmk, List.nil_append]
          exact ⟨[], [], rfl, by simp, by simp⟩
        · rw [if_neg hk] at hx
          cases hx
  | some ex =>
    by_cases hq : record_quality ex < record_quality r
    · have hstep : dedupe_step m r = dictInsert m (dedupe_key r) r := by
        simp only [dedupe_step, hl]
        rw [if_pos hq]
      rw [hstep]
      have hmem : dedupe_key r ∈ m.map Prod.fst := by
        by_contra hmem
        rw [← lookupKey_eq_none m (dedupe_key r)] at hmem
        rw [hmem] at hl
        cases hl
      refine ⟨dictInsert_coherent m (dedupe_key r) r hcoh rfl, ?_, ?_, ?_⟩
      · rw [dictInsert_keys, if_pos hmem]
        exact hnd
      · intro k
        rw [key_group_append]
        by_cases hk : dedupe_key r = k
        · subst hk
          rw [dictInsert_lookup_self, if_pos rfl]
          constructor
          · intro h; cases h
          · intro h
            cases (List.append_eq_nil.mp h).2
        · rw [if_neg hk, List.append_nil,
            dictInsert_lookup_other m (dedupe_key r) k r (fun h => hk h.symm)]
          exact hnone k
      · intro k x hx
        rw [key_group_append]
        by_cases hk : dedupe_key r = k
        · subst hk
          rw [dictInsert_lookup_self] at hx
          injection hx with hx
          subst hx
          rw [if_pos rfl]
          obtain ⟨l₁, l₂, hsplit, hb1, hb2⟩ := hfm (dedupe_key r) ex hl
          refine ⟨l₁ ++ ex :: l₂, [], by rw [hsplit], ?_, by simp⟩
          intro s hs
          rcases List.mem_append.mp hs with hs | hs
          · exact lt_trans (hb1 s hs) hq
          · rcases List.mem_cons.mp hs with hs | hs
            · subst hs; exact hq
            · exact lt_of_le_of_lt (hb2 s hs) hq
        · rw [if_neg hk, List.append_nil]
          rw [dictInsert_lookup_other m (dedupe_key r) k r (fun h => hk h.symm)] at hx
          exact hfm k x hx
    · have hstep : dedupe_step m r = m := by
        simp only [dedupe_step, hl]
        rw [if_neg hq]
      rw [hstep]
      refine ⟨hcoh, hnd, ?_, ?_⟩
      · intro k
        rw [key_group_append]
        by_cases hk : dedupe_key r = k
        · subst hk
          rw [hl, if_pos rfl]
          constructor
          · intro h; cases h
          · intro h
            cases (List.append_eq_nil.mp h).2
        · rw [if_neg hk, List.append_nil]
          exact hnone k
      · intro k x hx
        rw [key_group_append]
        by_cases hk : dedupe_key r = k
        · subst hk
          rw [hl] at hx
          injection hx with hx
          subst hx
          rw [if_pos rfl]
          obtain ⟨l₁, l₂, hsplit, hb1, hb2⟩ := hfm (dedupe_key r) ex hl
          refine ⟨l₁, l₂ ++ [r], by rw [hsplit]; simp, hb1, ?_⟩
          intro s hs
          rcases List.mem_append.mp hs with hs | hs
          · exact hb2 s hs
          · simp only [List.mem_singleton] at hs
            subst hs
            exact not_lt.mp hq
        · rw [if_neg hk, List.append_nil]
          exact hfm k x hx

/-- Helper: the invariant holds along the whole fold. -/
theorem dedupe_rep_foldl (records : List Rec) :
    ∀ (m : List (DKey × Rec)) (p : List Rec), dedupe_rep m p →
      dedupe_rep (records.foldl dedupe_step m) (p ++ records) := by
  induction records with
  | nil => intro m p h; simpa using h
  | cons r rs ih =>
    intro m p h
    rw [List.foldl_cons]
    have := ih (dedupe_step m r) (p ++ [r]) (dedupe_rep_step m p r h)
    simpa using this

/-- Helper: the invariant at the start of the fold. -/
theorem dedupe_rep_nil : dedupe_rep [] [] := by
  refine ⟨by simp, by simp, ?_, ?_⟩
  · intro k
    simp [lookupKey, key_group]
  · intro k r h
    cases h

/-- Helper: filtering a coherent, key-unique dictionary's values by a key
yields exactly the entry stored at that key. -/
theorem values_filter_eq (m : List (DKey × Rec))
    (hcoh : ∀ e ∈ m, dedupe_key e.2 = e.1) (hnd : (m.map Prod.fst).Nodup)
    (k : DKey) (r : Rec) (h : lookupKey m k = some r) :
    (m.map Prod.snd).filter (fun s => decide (dedupe_key s = k)) = [r] := by
  induction m with
  | nil => cases h
  | cons e rest ih =>
    obtain ⟨k', r'⟩ := e
    have hcoh' : dedupe_key r' = k' := hcoh (k', r') (List.mem_cons_self _ _)
    have hcohr : ∀ x ∈ rest, dedupe_key x.2 = x.1 :=
      fun x hx => hcoh x (List.mem_cons_of_mem _ hx)
    rw [List.map_cons] at hnd
    obtain ⟨hknotin, hndr⟩ := List.nodup_cons.mp hnd
    unfold lookupKey at h
    rw [List.map_cons, List.filter_cons]
    by_cases hk : k' = k
    · rw [if_pos hk] at h
      injection h with h
      subst h
      rw [if_pos (by rw [hcoh', hk]; simp)]
      have hnotin : k ∉ rest.map Prod.fst := hk ▸ hknotin
      have hempty : (rest.map Prod.snd).filter (fun s => decide (dedupe_key s = k)) = [] := by
        rw [List.filter_eq_nil_iff]
        intro s hs
        obtain ⟨e, he, hes⟩ := List.mem_map.mp hs
        simp only [decide_eq_true_eq]
        intro heq
        apply hnotin
        have hkey : dedupe_key s = e.1 := by
          rw [← hes]
          exact hcohr e he
        rw [← heq, hkey]
        exact List.mem_map_of_mem Prod.fst he
      rw [hempty]
    · rw [if_neg hk] at h
      rw [if_neg (by
        simp only [decide_eq_true_eq]
        rw [hcoh']
        exact hk)]
      exact ih hcohr hndr h

/-- Claim C6: `deduplicate_records` retains exactly one record per dedup key —
the key group of every key occurring in the input splits as `l₁ ++ r :: l₂`
where the retained record `r` strictly beats everything before it and is not
beaten by anything after it: `r` is the first record of maximal quality in its
group (ties keep the earlier record). -/
theorem deduplicate_first_max (records : List Rec) (k : DKey)
    (hk : k ∈ records.map dedupe_key) :
    ∃ r l₁ l₂,
      (deduplicate_records records).filter (fun s => decide (dedupe_key s = k)) = [r] ∧
      key_group k records = l₁ ++ r :: l₂ ∧
      (∀ s ∈ l₁, record_quality s < record_quality r) ∧
      (∀ s ∈ l₂, record_quality s ≤ record_quality r) := by
  have hrep := dedupe_rep_foldl records [] [] dedupe_rep_nil
  rw [List.nil_append] at hrep
  obtain ⟨hcoh, hnd, hnone, hfm⟩ := hrep
  have hgr : key_group k records ≠ [] := by
    obtain ⟨r, hr, hrk⟩ := List.mem_map.mp hk
    intro hempty
    have hmem : r ∈ key_group k records := by
      unfold key_group
      rw [List.mem_filter]
      exact ⟨hr, by simp [hrk]⟩
    rw [hempty] at hmem
    cases hmem
  cases hlk : lookupKey (records.foldl dedupe_step []) k with
  | none => exact absurd ((hnone k).mp hlk) hgr
  | some r =>
    obtain ⟨l₁, l₂, hsplit, hb1, hb2⟩ := hfm k r hlk
    exact ⟨r, l₁, l₂, values_filter_eq _ hcoh hnd k r hlk, hsplit, hb1, hb2⟩

/-- First tie witness record: brand `x`, address `a`. -/
def c6recA : Rec := { blankRec with brand := some "x", address := some "a" }

/-- Second tie witness record: same key as `c6recA` (address normalizes to
`a`), same quality, different record. -/
def c6recB : Rec := { blankRec with brand := some "x", address := some "A" }

/-- Claim C6 witness: the theorem applied to a concrete two-record collision
with equal qualities — the existence of the first-maximal retained record. -/
theorem deduplicate_first_max_witness :
    ∃ r l₁ l₂,
      (deduplicate_records [c6recA, c6recB]).filter
          (fun s => decide (dedupe_key s = DKey.fallback "x" "a" "")) = [r] ∧
      key_group (DKey.fallback "x" "a" "") [c6recA, c6recB] = l₁ ++ r :: l₂ ∧
      (∀ s ∈ l₁, record_quality s < record_quality r) ∧
      (∀ s ∈ l₂, record_quality s ≤ record_quality r) := by
  exact deduplicate_first_max [c6recA, c6recB] (DKey.fallback "x" "a" "") (by decide)

end DedupeFirstMax
